import Mathlib

set_option autoImplicit false

namespace JsUtilities

variable {K V T : Type}

/-!
Verification of the deferred-batching core of the `js-utilities` repository:
the asynchronous state container (`src/lib/state.ts`), the idle queue
scheduler and its bounded queue (`src/lib/idle-queue.ts`), and the deferral
primitive (`src/lib/next-time.ts`).

The embedding is shallow: JavaScript objects become association lists with a
numeric identity tag (object identity), `Object.assign` becomes a left fold
of per-entry writes, the subscriber machinery of `StateSubscriber` becomes
explicit state passing over lists of subscription records, and the event-loop
interactions (scheduled flushes, drains, the `setState` promise with its
200 ms timeout) become explicit discrete events on small state machines.
-/

/-- First-match lookup in an association list: the value a JavaScript
property read `o[k]` yields on our object representation (JS objects have
unique keys, so under the `objWF` invariant the match is unique). -/
def getv [DecidableEq K] : List (K × V) → K → Option V
  | [], _ => none
  | p :: rest, k => if p.1 = k then some p.2 else getv rest k

/-- Left-biased choice on `Option`, used to state merge results. -/
def orO : Option V → Option V → Option V
  | some v, _ => some v
  | none, b => b

/-- One property write `target[k] = v` as performed by `Object.assign`:
overwrite in place if the key is present, else append. -/
def setKey [DecidableEq K] (o : List (K × V)) (k : K) (v : V) : List (K × V) :=
  if ∃ q ∈ o, q.1 = k then o.map (fun q => if q.1 = k then (k, v) else q)
  else o ++ [(k, v)]

/-- `Object.assign(t, s)` for one source object: fold `setKey` over the
entries of `s` in order (later entries of the same source also win). -/
def assign [DecidableEq K] (t s : List (K × V)) : List (K × V) :=
  s.foldl (fun acc q => setKey acc q.1 q.2) t

/-- Last-match lookup: the value the fold of writes leaves at `k` after
copying one source object. -/
def getvLast [DecidableEq K] (o : List (K × V)) (k : K) : Option V :=
  getv o.reverse k

/-- Well-formedness of the object representation: keys are unique, as they
are for every actual JavaScript object. -/
def objWF (o : List (K × V)) : Prop := (o.map Prod.fst).Nodup

instance [DecidableEq K] (o : List (K × V)) : Decidable (objWF o) := by
  unfold objWF
  infer_instance

/-!
## Objects with identity and the subscriber machinery

`Obj` is a JavaScript object value: its field content plus an allocation tag
`oid` standing for reference identity (`===` compares tags; every allocation
uses a tag not yet in use, tracked by a `nextId` counter in the store).

`StateSubscriber` (src/lib/state.ts, lines 11-102) keeps
`_subscribers : SubscriberMeta[]` and `_removedSubscribers`.  Callback
function references become numeric tokens `cb : Nat`; a subscription record
is a `SubMeta`.  Removal records are kept per callback token: within one
window between two pruning points the record for a given callback reference
is unique (`subscribe` deduplicates by reference), so pushing the found
record is the same as pushing its token.
-/

structure Obj (K V : Type) where
  oid : Nat
  fields : List (K × V)
  deriving DecidableEq

structure SubMeta (K : Type) where
  cb : Nat
  keys : Option (List K)
  deriving DecidableEq

structure SubscriberState (K : Type) where
  subs : List (SubMeta K)
  removed : List Nat
  deriving DecidableEq

/-- `StateSubscriber.subscribe` (lines 15-23): register unless the same
callback reference is already present; an empty `keys` array is falsy in
`keys && keys.length`, so it is stored as a keyless subscription. -/
def subscribeS [DecidableEq K] (cb : Nat) (keys : Option (List K)) (st : SubscriberState K) :
    SubscriberState K :=
  if ∃ m ∈ st.subs, m.cb = cb then st
  else
    match keys with
    | some ks => if ks.isEmpty then { st with subs := st.subs ++ [⟨cb, none⟩] }
                 else { st with subs := st.subs ++ [⟨cb, some ks⟩] }
    | none => { st with subs := st.subs ++ [⟨cb, none⟩] }

/-- The closure returned by `subscribe` (lines 19-22): find the record for
this callback reference in the live list and, if present, push it onto
`_removedSubscribers`.  The live list itself is untouched. -/
def unsubscribeS [DecidableEq K] (cb : Nat) (st : SubscriberState K) : SubscriberState K :=
  if ∃ m ∈ st.subs, m.cb = cb then { st with removed := st.removed ++ [cb] }
  else st

/-- The pruning prologue of `notify` (lines 45-57): if any removals are
pending, rebuild the live list without them (splicing in place) and clear
the removal list; otherwise iterate the live list as is. -/
def pruneS [DecidableEq K] (st : SubscriberState K) : SubscriberState K :=
  if st.removed.isEmpty then st
  else { subs := st.subs.filter (fun m => decide (m.cb ∉ st.removed)), removed := [] }

/-- `isStateChangedWithKeys` (lines 73-96): reference-equal states never
count as changed; an empty key list never counts as changed; otherwise the
loop breaks at the first key whose values differ under the loosely-typed
inequality `!=`, abstracted as the parameter `vne` (absent field = JS
`undefined` = `none`). -/
def isStateChangedWithKeys [DecidableEq K] (vne : Option V → Option V → Bool)
    (prevS newS : Obj K V) (ks : List K) : Bool :=
  if prevS.oid = newS.oid then false
  else if ks.isEmpty then false
  else ks.any (fun k => vne (getv prevS.fields k) (getv newS.fields k))

/-- The per-record gate inside `notify` (lines 58-64): keyless records are
always invoked, keyed records only when `isStateChangedWithKeys` holds. -/
def gateS [DecidableEq K] (vne : Option V → Option V → Bool) (newS prevS : Obj K V)
    (m : SubMeta K) : Bool :=
  match m.keys with
  | none => true
  | some ks => isStateChangedWithKeys vne prevS newS ks

/-- Effect of one subscriber callback during the pass: user callbacks are
abstracted as a finite script of `unsubscribe` calls they perform. -/
def applyScript [DecidableEq K] (us : List Nat) (st : SubscriberState K) : SubscriberState K :=
  us.foldl (fun acc u => unsubscribeS u acc) st

/-- The `forEach` body of `notify` over the captured list: invoke each gated
record once, in order, threading the mutations its callback performs and
recording the invoked callback tokens. -/
def runPass [DecidableEq K] (vne : Option V → Option V → Bool) (script : Nat → List Nat)
    (newS prevS : Obj K V) :
    List (SubMeta K) → SubscriberState K → SubscriberState K × List Nat
  | [], st => (st, [])
  | m :: ms, st =>
    if gateS vne newS prevS m then
      let st2 := applyScript (script m.cb) st
      let r := runPass vne script newS prevS ms st2
      (r.1, m.cb :: r.2)
    else runPass vne script newS prevS ms st

/-- `StateSubscriber.notify` (lines 44-65): prune pending removals, then run
the pass over the captured (now stable) list. -/
def notifyS [DecidableEq K] (vne : Option V → Option V → Bool) (script : Nat → List Nat)
    (newS prevS : Obj K V) (st : SubscriberState K) : SubscriberState K × List Nat :=
  let st1 := pruneS st
  runPass vne script newS prevS st1.subs st1

/-- `StateSubscriber.dispose` (lines 98-101). -/
def disposeS (K : Type) : SubscriberState K := ⟨[], []⟩

/-!
## The `State<T>` store (src/lib/state.ts, lines 125-242)

`pendingFlush` models a `nextTime(() => this.tick())` task that has been
scheduled and has neither fired nor been cancelled; the source discards the
cancel handle returned by `nextTime` (line 210), so nothing in `State` can
cancel it.  `nextId` is the allocation counter for fresh object identities;
every object ever created by this store has `oid < nextId`.
-/

structure StoreState (K V : Type) where
  curr : Obj K V
  stateChanges : List (List (K × V))
  dirty : Bool
  subsState : SubscriberState K
  pendingFlush : Bool
  nextId : Nat
  deriving DecidableEq

/-- The merge in `tick` (lines 224-232): with pending patches, the sources
of `Object.assign({}, ...)` are `[{}, current, ...patches]` (after the
`unshift`); with none, a plain shallow copy `Object.assign({}, current)`. -/
def tickMergeFields [DecidableEq K] (curr : List (K × V)) (patches : List (List (K × V))) :
    List (K × V) :=
  if patches.isEmpty then assign [] curr
  else (([] : List (K × V)) :: curr :: patches).foldl assign []

/-- `tick` followed by `flush` (lines 219-241): clear `dirty`, drain the
patch queue, build the merged object as a fresh allocation, swap it in and
notify subscribers with `(current, prev)`.  The invoked callback tokens are
returned alongside the new store state. -/
def tick [DecidableEq K] (vne : Option V → Option V → Bool) (script : Nat → List Nat)
    (st : StoreState K V) : StoreState K V × List Nat :=
  let patches := st.stateChanges
  let newFields := tickMergeFields st.curr.fields patches
  let newObj : Obj K V := ⟨st.nextId, newFields⟩
  let prev := st.curr
  let r := notifyS vne script newObj prev st.subsState
  ({ st with
      dirty := false
      stateChanges := []
      curr := newObj
      nextId := st.nextId + 1
      subsState := r.1 }, r.2)

/-- `markDirty` (lines 205-211): edge-triggered; on the false-to-true edge
either tick synchronously (`immediateFlush`) or schedule a deferred tick,
discarding the cancel handle. -/
def markDirty [DecidableEq K] (vne : Option V → Option V → Bool) (script : Nat → List Nat)
    (immediateFlush : Bool) (st : StoreState K V) : StoreState K V × List Nat :=
  if st.dirty then (st, [])
  else
    let st1 := { st with dirty := true }
    if immediateFlush then tick vne script st1
    else ({ st1 with pendingFlush := true }, [])

/-- The scheduled `nextTime` task firing: run `tick` if the task is still
pending (a cancelled or already-fired task does nothing). -/
def fireScheduledFlush [DecidableEq K] (vne : Option V → Option V → Bool)
    (script : Nat → List Nat) (st : StoreState K V) : StoreState K V × List Nat :=
  if st.pendingFlush then tick vne script { st with pendingFlush := false }
  else (st, [])

/-- The promise form of `setState` (lines 185-198): push the patch, mark
dirty (with `immediateFlush` this runs `tick` synchronously), and only then
run the `Promise` executor produced by `createSubscribeWrapper`, which
subscribes the one-shot wrapper (a fresh closure, token `wcb`) with no keys. -/
def setStatePromise [DecidableEq K] (vne : Option V → Option V → Bool)
    (script : Nat → List Nat) (immediateFlush : Bool) (patch : List (K × V)) (wcb : Nat)
    (st : StoreState K V) : StoreState K V × List Nat :=
  let st1 := { st with stateChanges := st.stateChanges ++ [patch] }
  let r := markDirty vne script immediateFlush st1
  ({ r.1 with subsState := subscribeS wcb none r.1.subsState }, r.2)

/-- `State.dispose` (lines 213-217): clear the patch queue, reset `_state`
to a freshly allocated empty object, and dispose the subscriber machinery.
It does not touch `dirty` and holds no cancel handle for a pending flush. -/
def disposeStore [DecidableEq K] (st : StoreState K V) : StoreState K V :=
  { st with
      stateChanges := []
      curr := ⟨st.nextId, []⟩
      nextId := st.nextId + 1
      subsState := disposeS K }

/-- `State.createState` / the constructor (lines 133-155): seed `_state`
with the initial object and immediately mark dirty. -/
def createState [DecidableEq K] (vne : Option V → Option V → Bool) (script : Nat → List Nat)
    (initialFields : List (K × V)) (immediateFlush : Bool) : StoreState K V × List Nat :=
  markDirty vne script immediateFlush
    { curr := ⟨0, initialFields⟩
      stateChanges := []
      dirty := false
      subsState := ⟨[], []⟩
      pendingFlush := false
      nextId := 1 }

/-- Specification-side merge value (spec §8 P1): the flushed state equals
the pre-flush state shallow-overwritten field by field by the queued
patches in order, later patches winning per field. -/
def specShallowMerge [DecidableEq K] (curr : List (K × V)) (patches : List (List (K × V)))
    (k : K) : Option V :=
  patches.foldl (fun acc p => orO (getv p k) acc) (getv curr k)

/-!
## The `setState` promise path (`createSubscribeWrapper`, lines 25-42)

The executor of `new Promise(createSubscribeWrapper())` subscribes a
one-shot wrapper and arms a 200 ms timer.  Two events can then happen, in
either order: the wrapper fires on a flush notification, or the timer
fires.  A promise settles at most once; `WrapperRun` records the first
settlement together with whether `clearTimeout` already ran.  The public
result is the promise chained with `.catch(noop)` (line 197), which turns a
rejection into fulfilment with `undefined` (`none`).
-/

inductive Settle (T : Type) where
  | fulfilled : Option T → Settle T
  | rejected : String → Settle T
  deriving DecidableEq

structure WrapperRun (T : Type) where
  settled : Option (Settle T)
  timerCleared : Bool
  deriving DecidableEq

/-- State right after the executor ran: wrapper subscribed, timer armed. -/
def wrapperInit (T : Type) : WrapperRun T := ⟨none, false⟩

/-- The wrapper being notified with a flushed state (lines 29-33):
`clearTimeout(id)`, then `subscriber(state)` — which is the promise
`resolve`, a no-op if the promise already settled — then `unsub()`. -/
def wrapperFire (w : WrapperRun T) (state : T) : WrapperRun T :=
  { settled := match w.settled with
      | none => some (Settle.fulfilled (some state))
      | some s => some s
    timerCleared := true }

/-- The 200 ms timer firing (lines 36-39): if not already cleared by the
wrapper, reject with the fixed reason; a no-op if the promise settled. -/
def timeoutFire (w : WrapperRun T) : WrapperRun T :=
  if w.timerCleared then w
  else
    { w with settled := match w.settled with
        | none => some (Settle.rejected "state not update")
        | some s => some s }

/-- `.catch(noop)` (line 197): a rejection becomes fulfilment with the
return value of `noop`, i.e. `undefined`. -/
def catchNoop : Settle T → Settle T
  | Settle.rejected _ => Settle.fulfilled none
  | s => s

/-- What the caller of the promise form of `setState` can observe once the
inner promise has settled. -/
def callerOutcome (w : WrapperRun T) : Option (Settle T) :=
  w.settled.map catchNoop

/-!
## The bounded queue and idle scheduler (src/lib/idle-queue.ts)

`createQueue` (lines 29-66) keeps an `Array` for the ordered mode and a
`Set` for the unique mode; a JavaScript `Set` is insertion-ordered and
re-adding a present element is a no-op, so it is modelled as a duplicate-free
list.  `createScheduler` (lines 71-124) wraps one queue; `cancelSet` models
`_cancel !== undefined`, `drainScheduled` models the underlying `nextTime`
task being booked and not yet fired or cancelled, `inFlight` models a
blocking drain suspended on `await` of the hook result, and `calls` records
the batches handed to the hook.
-/

structure Queue (T : Type) where
  items : List T
  uitems : List T
  deriving DecidableEq

def qsize (unique : Bool) (q : Queue T) : Nat :=
  if unique then q.uitems.length else q.items.length

/-- `add` (lines 40-42): push, or `Set.add` which keeps the original
position of an already-present element. -/
def qadd [DecidableEq T] (unique : Bool) (x : T) (q : Queue T) : Queue T :=
  if unique then
    if x ∈ q.uitems then q else { q with uitems := q.uitems ++ [x] }
  else { q with items := q.items ++ [x] }

/-- The unique-mode take loop (lines 52-55): repeatedly pop the first
element of the insertion-ordered set.  The count is clamped before the
loop, so the empty case is never reached on real inputs. -/
def utakeLoop : Nat → List T → List T × List T
  | 0, l => ([], l)
  | _ + 1, [] => ([], [])
  | n + 1, x :: rest =>
    let r := utakeLoop n rest
    (x :: r.1, r.2)

/-- `take(count)` (lines 48-60): clamp the count to the size, then either
loop over the set or `splice(0, count)` the array. -/
def qtake (unique : Bool) (n : Nat) (q : Queue T) : List T × Queue T :=
  let c := if n > qsize unique q then qsize unique q else n
  if unique then
    let r := utakeLoop c q.uitems
    (r.1, { q with uitems := r.2 })
  else (q.items.take c, { q with items := q.items.drop c })

/-- `destroy` of the queue (lines 61-64). -/
def qdestroy (T : Type) : Queue T := ⟨[], []⟩

structure SchedOptions where
  useIdle : Bool
  batchSize : Nat
  block : Bool
  unique : Bool
  deriving DecidableEq

structure Sched (T : Type) where
  q : Queue T
  cancelSet : Bool
  drainScheduled : Bool
  inFlight : Option (List T)
  hookSet : Bool
  calls : List (List T)
  deriving DecidableEq

/-- `_next` (lines 84-94): request a drain only while the queue is
non-empty and `_cancel` is unset; book the `nextTime` cancel handle.  The
handle is never cleared anywhere in the source. -/
def nextS (o : SchedOptions) (s : Sched T) : Sched T :=
  if qsize o.unique s.q = 0 then s
  else if s.cancelSet then s
  else { s with cancelSet := true, drainScheduled := true }

/-- `enqueue` (lines 79-82). -/
def enqueueS [DecidableEq T] (o : SchedOptions) (x : T) (s : Sched T) : Sched T :=
  nextS o { s with q := qadd o.unique x s.q }

/-- The scheduled callback firing and `_process` (lines 88-91 and 96-108):
take a batch (`batchSize || 1`), invoke the hook with it, and then either
suspend on the awaited hook result (blocking mode with an awaitable
result), or fall through to the single post-processing `_next()` call
(`_process`'s own in blocking mode, the callback's in non-blocking mode).
`_cancel` stays set. -/
def fireS (o : SchedOptions) (hookAsync : Bool) (s : Sched T) : Sched T :=
  if s.drainScheduled then
    let s1 := { s with drainScheduled := false }
    let bs := if o.batchSize = 0 then 1 else o.batchSize
    let r := qtake o.unique bs s1.q
    let s2 := { s1 with q := r.2 }
    let s3 := if s2.hookSet then { s2 with calls := s2.calls ++ [r.1] } else s2
    if o.block && s3.hookSet && hookAsync then { s3 with inFlight := some r.1 }
    else nextS o s3
  else s

/-- The awaited hook result settling in blocking mode (lines 103-107): the
suspended `_process` resumes and calls `_next()`. -/
def settleS (o : SchedOptions) (s : Sched T) : Sched T :=
  match s.inFlight with
  | none => s
  | some _ => nextS o { s with inFlight := none }

/-- `destroy` of the scheduler (lines 117-121): clear the queue, detach the
hook, and call `_cancel?.()`, which cancels a still-pending task and is a
no-op otherwise.  `_cancel` itself is not reset, and an in-flight awaited
hook is untouched. -/
def destroyS (s : Sched T) : Sched T :=
  { s with
      q := qdestroy T
      hookSet := false
      drainScheduled := if s.cancelSet then false else s.drainScheduled }

/-!
## Concrete instances used to exercise the definitions
-/

/-- A concrete loose-inequality function for witnesses: structural `!=` on
optional numbers (mixed-type coercions do not arise for number fields). -/
def natVne : Option Nat → Option Nat → Bool := fun a b => a != b

/-- Subscriber callbacks that perform no unsubscriptions. -/
def noScript : Nat → List Nat := fun _ => []

/-- A small store: two fields, two queued patches, a keyed and a keyless
subscriber, a flush scheduled. -/
def demoStore : StoreState Nat Nat :=
  { curr := ⟨0, [(1, 10), (2, 20)]⟩
    stateChanges := [[(1, 11)], [(2, 21), (1, 12)]]
    dirty := true
    subsState := ⟨[⟨1, some [1]⟩, ⟨2, none⟩], []⟩
    pendingFlush := true
    nextId := 1 }

/-- A store whose only pending activity is one scheduled (deferred) flush,
as after a single `setState` call on a clean non-immediate store. -/
def c5Store : StoreState Nat Nat :=
  { curr := ⟨0, [(1, 5)]⟩
    stateChanges := [[(1, 6)]]
    dirty := false
    subsState := ⟨[⟨7, none⟩], []⟩
    pendingFlush := false
    nextId := 1 }

/-- A blocking-mode scheduler in the middle of awaiting its hook. -/
def c5Sched : Sched Char :=
  { q := ⟨['c'], []⟩
    cancelSet := true
    drainScheduled := true
    inFlight := some ['a', 'b']
    hookSet := true
    calls := [['a', 'b']] }

/-- A clean store with one existing subscriber, used to exercise the
promise form of `setState` with `immediateFlush = true`. -/
def c9Store : StoreState Nat Nat :=
  { curr := ⟨0, [(1, 5)]⟩
    stateChanges := []
    dirty := false
    subsState := ⟨[⟨3, none⟩], []⟩
    pendingFlush := false
    nextId := 1 }

/-- Scenario C of the specification: `batchSize = 2`, `block = true`. -/
def scenCOptions : SchedOptions := ⟨false, 2, true, false⟩

/-- A freshly created scheduler with a hook installed. -/
def scenCInit : Sched Char := ⟨⟨[], []⟩, false, false, none, true, []⟩

/-- Scenario C after `enqueue` of the five items. -/
def scenCQueued : Sched Char :=
  enqueueS scenCOptions 'e' (enqueueS scenCOptions 'd' (enqueueS scenCOptions 'c'
    (enqueueS scenCOptions 'b' (enqueueS scenCOptions 'a' scenCInit))))

/-- Scenario C after the one booked drain fires and its awaited hook
invocation settles: the entire remaining reachable behaviour. -/
def scenCFinal : Sched Char := settleS scenCOptions (fireS scenCOptions true scenCQueued)

/-!
## Supporting lemmas
-/

@[simp] theorem getv_nil [DecidableEq K] (k : K) : getv ([] : List (K × V)) k = none := rfl

@[simp] theorem getv_cons [DecidableEq K] (p : K × V) (rest : List (K × V)) (k : K) :
    getv (p :: rest) k = if p.1 = k then some p.2 else getv rest k := rfl

@[simp] theorem orO_none (b : Option V) : orO none b = b := rfl

@[simp] theorem orO_some (v : V) (b : Option V) : orO (some v) b = some v := rfl

@[simp] theorem orO_right_none (a : Option V) : orO a none = a := by cases a <;> rfl

theorem orO_assoc (a b c : Option V) : orO (orO a b) c = orO a (orO b c) := by
  cases a <;> rfl

theorem getv_append [DecidableEq K] (l₁ l₂ : List (K × V)) (k : K) :
    getv (l₁ ++ l₂) k = orO (getv l₁ k) (getv l₂ k) := by
  induction l₁ with
  | nil => simp
  | cons p rest ih =>
    by_cases h : p.1 = k <;> simp [h, ih]

theorem getv_eq_none_of_not_hasKey [DecidableEq K] {o : List (K × V)} {k : K}
    (h : ¬ ∃ q ∈ o, q.1 = k) : getv o k = none := by
  induction o with
  | nil => rfl
  | cons p rest ih =>
    have hp : ¬ p.1 = k := fun hk => h ⟨p, List.mem_cons_self p rest, hk⟩
    have hr : ¬ ∃ q ∈ rest, q.1 = k := fun ⟨q, hq, hk⟩ => h ⟨q, List.mem_cons_of_mem p hq, hk⟩
    simp [hp, ih hr]

theorem map_setKey_id [DecidableEq K] {o : List (K × V)} {k : K} (v : V)
    (h : ¬ ∃ q ∈ o, q.1 = k) :
    o.map (fun q => if q.1 = k then (k, v) else q) = o := by
  induction o with
  | nil => rfl
  | cons p rest ih =>
    have hp : ¬ p.1 = k := fun hk => h ⟨p, List.mem_cons_self p rest, hk⟩
    have hr : ¬ ∃ q ∈ rest, q.1 = k := fun ⟨q, hq, hk⟩ => h ⟨q, List.mem_cons_of_mem p hq, hk⟩
    simp [hp, ih hr]

theorem getv_map_setKey [DecidableEq K] {o : List (K × V)} {k : K} (v : V) (k' : K)
    (h : ∃ q ∈ o, q.1 = k) :
    getv (o.map (fun q => if q.1 = k then (k, v) else q)) k' =
      if k' = k then some v else getv o k' := by
  induction o with
  | nil => exact absurd h (by simp)
  | cons p rest ih =>
    by_cases hp : p.1 = k
    · by_cases hk' : k' = k
      · simp [hp, hk']
      · have hk2 : ¬ k = k' := fun hc => hk' hc.symm
        by_cases hr : ∃ q ∈ rest, q.1 = k
        · simp only [List.map_cons, if_pos hp, getv_cons, ih hr]
          simp [hk', hk2, hp]
        · rw [List.map_cons, if_pos hp, getv_cons, map_setKey_id v hr]
          simp [hk', hk2, hp]
    · have hr : ∃ q ∈ rest, q.1 = k := by
        rcases h with ⟨q, hq, hk⟩
        rcases List.mem_cons.mp hq with h1 | h1
        · exact absurd (h1 ▸ hk) hp
        · exact ⟨q, h1, hk⟩
      by_cases hpk' : p.1 = k'
      · have : ¬ k' = k := fun hc => hp (hpk'.trans hc)
        simp [hp, hpk', this]
      · simp [hp, hpk', ih hr]

theorem getv_setKey [DecidableEq K] (o : List (K × V)) (k : K) (v : V) (k' : K) :
    getv (setKey o k v) k' = if k' = k then some v else getv o k' := by
  unfold setKey
  by_cases h : ∃ q ∈ o, q.1 = k
  · rw [if_pos h, getv_map_setKey v k' h]
  · rw [if_neg h, getv_append]
    by_cases hk' : k' = k
    · subst hk'
      simp [getv_eq_none_of_not_hasKey h]
    · have hk2 : ¬ k = k' := fun hc => hk' hc.symm
      simp [hk', hk2]

theorem getv_assign [DecidableEq K] (s : List (K × V)) (t : List (K × V)) (k : K) :
    getv (assign t s) k = orO (getvLast s k) (getv t k) := by
  induction s generalizing t with
  | nil => simp [assign, getvLast]
  | cons p rest ih =>
    show getv (assign (setKey t p.1 p.2) rest) k = _
    rw [ih]
    have hrev : getvLast (p :: rest) k = orO (getvLast rest k) (getv [p] k) := by
      simp only [getvLast, List.reverse_cons, getv_append]
    rw [hrev, orO_assoc]
    congr 1
    rw [getv_setKey]
    by_cases hk : p.1 = k
    · simp [hk]
    · have hk2 : ¬ k = p.1 := fun hc => hk hc.symm
      simp [hk, hk2]

theorem getv_reverse_of_wf [DecidableEq K] {o : List (K × V)} (h : objWF o) (k : K) :
    getv o.reverse k = getv o k := by
  induction o with
  | nil => rfl
  | cons p rest ih =>
    have hnd : (rest.map Prod.fst).Nodup := (List.nodup_cons.mp h).2
    have hnm : p.1 ∉ rest.map Prod.fst := (List.nodup_cons.mp h).1
    rw [List.reverse_cons, getv_append, ih hnd]
    by_cases hk : p.1 = k
    · subst hk
      have : ¬ ∃ q ∈ rest, q.1 = p.1 := by
        rintro ⟨q, hq, hk⟩
        exact hnm (hk ▸ List.mem_map_of_mem Prod.fst hq)
      simp [getv_eq_none_of_not_hasKey this]
    · simp [hk]

theorem getvLast_eq_getv_of_wf [DecidableEq K] {o : List (K × V)} (h : objWF o) (k : K) :
    getvLast o k = getv o k := getv_reverse_of_wf h k

@[simp] theorem applyScript_subs [DecidableEq K] (us : List Nat) (st : SubscriberState K) :
    (applyScript us st).subs = st.subs := by
  induction us generalizing st with
  | nil => rfl
  | cons u rest ih =>
    show (applyScript rest (unsubscribeS u st)).subs = st.subs
    rw [ih]
    unfold unsubscribeS
    split <;> rfl

/-- Who gets invoked in one pass is fully determined by the captured list
and the gate; the callbacks cannot change it from inside the pass. -/
theorem runPass_invoked [DecidableEq K] (vne : Option V → Option V → Bool)
    (script : Nat → List Nat) (newS prevS : Obj K V) (metas : List (SubMeta K))
    (st : SubscriberState K) :
    (runPass vne script newS prevS metas st).2 =
      (metas.filter (gateS vne newS prevS)).map (·.cb) := by
  induction metas generalizing st with
  | nil => rfl
  | cons m ms ih =>
    by_cases h : gateS vne newS prevS m
    · simp [runPass, h, ih]
    · simp [runPass, h, ih]

/-- Unsubscribing from inside a callback never mutates the live list during
the pass. -/
theorem runPass_subs [DecidableEq K] (vne : Option V → Option V → Bool)
    (script : Nat → List Nat) (newS prevS : Obj K V) (metas : List (SubMeta K))
    (st : SubscriberState K) :
    (runPass vne script newS prevS metas st).1.subs = st.subs := by
  induction metas generalizing st with
  | nil => rfl
  | cons m ms ih =>
    by_cases h : gateS vne newS prevS m
    · simp [runPass, h, ih]
    · simp [runPass, h, ih]

theorem notifyS_invoked [DecidableEq K] (vne : Option V → Option V → Bool)
    (script : Nat → List Nat) (newS prevS : Obj K V) (st : SubscriberState K) :
    (notifyS vne script newS prevS st).2 =
      ((pruneS st).subs.filter (gateS vne newS prevS)).map (·.cb) :=
  runPass_invoked vne script newS prevS (pruneS st).subs (pruneS st)

theorem notifyS_subs [DecidableEq K] (vne : Option V → Option V → Bool)
    (script : Nat → List Nat) (newS prevS : Obj K V) (st : SubscriberState K) :
    (notifyS vne script newS prevS st).1.subs = (pruneS st).subs :=
  runPass_subs vne script newS prevS (pruneS st).subs (pruneS st)

theorem nodup_cb_eq [DecidableEq K] {l : List (SubMeta K)}
    (h : (l.map (·.cb)).Nodup) {a b : SubMeta K}
    (ha : a ∈ l) (hb : b ∈ l) (hcb : a.cb = b.cb) : a = b := by
  induction l with
  | nil => cases ha
  | cons m ms ih =>
    rcases List.nodup_cons.mp h with ⟨hm, hms⟩
    rcases List.mem_cons.mp ha with h1 | h1 <;> rcases List.mem_cons.mp hb with h2 | h2
    · exact h1.trans h2.symm
    · subst h1
      have : a.cb ∈ ms.map (·.cb) := by
        rw [hcb]; exact List.mem_map_of_mem (·.cb) h2
      exact absurd this hm
    · subst h2
      have : b.cb ∈ ms.map (·.cb) := by
        rw [← hcb]; exact List.mem_map_of_mem (·.cb) h1
      exact absurd this hm
    · exact ih hms h1 h2

theorem getv_foldl_assign [DecidableEq K] (ps : List (List (K × V))) (t : List (K × V))
    (k : K) :
    getv (ps.foldl assign t) k =
      ps.foldl (fun acc p => orO (getvLast p k) acc) (getv t k) := by
  induction ps generalizing t with
  | nil => rfl
  | cons p rest ih =>
    show getv (rest.foldl assign (assign t p)) k = _
    rw [ih, getv_assign]
    rfl

theorem foldl_orO_congr [DecidableEq K] (ps : List (List (K × V))) (k : K)
    (hwf : ∀ p ∈ ps, objWF p) (a : Option V) :
    ps.foldl (fun acc p => orO (getvLast p k) acc) a =
      ps.foldl (fun acc p => orO (getv p k) acc) a := by
  induction ps generalizing a with
  | nil => rfl
  | cons p rest ih =>
    have hp : objWF p := hwf p (List.mem_cons_self p rest)
    have hr : ∀ q ∈ rest, objWF q := fun q hq => hwf q (List.mem_cons_of_mem p hq)
    show rest.foldl _ (orO (getvLast p k) a) = rest.foldl _ (orO (getv p k) a)
    rw [getvLast_eq_getv_of_wf hp, ih hr]

/-- The value the drained merge leaves at each key: exactly the
specification-side shallow merge, provided every object involved has unique
keys (as every real JavaScript object does). -/
theorem getv_tickMergeFields [DecidableEq K] (curr : List (K × V))
    (patches : List (List (K × V))) (k : K) (hc : objWF curr)
    (hp : ∀ p ∈ patches, objWF p) :
    getv (tickMergeFields curr patches) k = specShallowMerge curr patches k := by
  unfold tickMergeFields specShallowMerge
  by_cases h : patches.isEmpty
  · rw [if_pos h, getv_assign]
    have : patches = [] := List.isEmpty_iff.mp h
    subst this
    simp [getvLast_eq_getv_of_wf hc]
  · rw [if_neg h]
    rw [show (([] : List (K × V)) :: curr :: patches).foldl assign ([] : List (K × V)) =
          patches.foldl assign (assign (assign [] []) curr) from rfl]
    rw [getv_foldl_assign, foldl_orO_congr patches k hp]
    have hbase : getv (assign (assign ([] : List (K × V)) []) curr) k = getv curr k := by
      rw [getv_assign]
      simp [getvLast_eq_getv_of_wf hc, assign]
    rw [hbase]

theorem pruneS_subs_sublist [DecidableEq K] (st : SubscriberState K) :
    (pruneS st).subs.Sublist st.subs := by
  unfold pruneS
  split
  · exact List.Sublist.refl _
  · exact List.filter_sublist _

theorem mem_pruneS [DecidableEq K] {st : SubscriberState K} {m : SubMeta K}
    (hm : m ∈ st.subs) (hr : m.cb ∉ st.removed) : m ∈ (pruneS st).subs := by
  unfold pruneS
  split
  · exact hm
  · exact List.mem_filter.mpr ⟨hm, decide_eq_true hr⟩

theorem mem_pruneS_not_removed [DecidableEq K] {st : SubscriberState K} {m : SubMeta K}
    (hm : m ∈ (pruneS st).subs) (hr : m.cb ∈ st.removed) : False := by
  unfold pruneS at hm
  split at hm
  · rename_i h
    rw [List.isEmpty_iff.mp h] at hr
    cases hr
  · have h2 := (List.mem_filter.mp hm).2
    exact (of_decide_eq_true h2) hr

theorem mem_notify_invoked_iff [DecidableEq K] (vne : Option V → Option V → Bool)
    (script : Nat → List Nat) (newS prevS : Obj K V) (st : SubscriberState K) (c : Nat) :
    c ∈ (notifyS vne script newS prevS st).2 ↔
      ∃ m ∈ (pruneS st).subs, gateS vne newS prevS m = true ∧ m.cb = c := by
  rw [notifyS_invoked]
  constructor
  · intro h
    rcases List.mem_map.mp h with ⟨m, hm, hcb⟩
    rcases List.mem_filter.mp hm with ⟨hm1, hm2⟩
    exact ⟨m, hm1, hm2, hcb⟩
  · rintro ⟨m, hm, hg, hcb⟩
    exact List.mem_map.mpr ⟨m, List.mem_filter.mpr ⟨hm, hg⟩, hcb⟩

theorem gate_single_key [DecidableEq K] (vne : Option V → Option V → Bool)
    (newS prevS : Obj K V) (c : Nat) (k : K) (hoid : ¬ prevS.oid = newS.oid) :
    gateS vne newS prevS ⟨c, some [k]⟩ = vne (getv prevS.fields k) (getv newS.fields k) := by
  simp [gateS, isStateChangedWithKeys, hoid]

theorem utakeLoop_eq (n : Nat) (l : List T) : utakeLoop n l = (l.take n, l.drop n) := by
  induction n generalizing l with
  | zero => simp [utakeLoop]
  | succ m ih =>
    cases l with
    | nil => simp [utakeLoop]
    | cons x rest => simp [utakeLoop, ih]

theorem subscribeS_subs_of_not_mem [DecidableEq K] {sst : SubscriberState K} {c : Nat}
    (h : ¬ ∃ m ∈ sst.subs, m.cb = c) :
    (subscribeS c none sst).subs = sst.subs ++ [⟨c, none⟩] := by
  unfold subscribeS
  rw [if_neg h]

theorem clamp_eq_min (n m : Nat) : (if n > m then m else n) = min n m := by
  rcases Nat.lt_or_ge m n with h | h
  · rw [if_pos h, Nat.min_eq_right (Nat.le_of_lt h)]
  · rw [if_neg (Nat.not_lt.mpr h), Nat.min_eq_left h]

/-!
## Claims
-/

/-- C1: the claim asserts that with `batchSize = 2` and `block = true`,
enqueueing the five items makes the hook fire with `['a','b']`, then
`['c','d']`, then `['e']`, the scheduler clearing its booked cancel handle
once each drain fires.  The code never clears `_cancel` (no assignment
resets it in src/lib/idle-queue.ts), so `_next` refuses to book a second
drain: this theorem evaluates the complete reachable behaviour of the
scenario and shows the hook is invoked exactly once, with `['a','b']`, the
remaining items are stranded in the queue, the cancel handle is still
booked, and both remaining event sources (the drain task, the awaited hook)
are exhausted, so the schedule is permanently stuck — contradicting the
claimed second and third invocations, while the code comment on line 106
(`if block, go to the next batch`) documents the intent the claim states. -/
theorem c1_scenarioC_stalls_after_first_batch :
    scenCFinal.calls = [['a', 'b']] ∧
    scenCFinal.q.items = ['c', 'd', 'e'] ∧
    scenCFinal.cancelSet = true ∧
    scenCFinal.drainScheduled = false ∧
    scenCFinal.inFlight = none ∧
    fireS scenCOptions true scenCFinal = scenCFinal ∧
    settleS scenCOptions scenCFinal = scenCFinal := by
  decide

/-- C2: for every sequence of patches queued between two flushes, the state
produced by the flush equals the pre-flush state shallow-overwritten field
by field by the patches in order, later patches winning per field.  The
well-formedness hypotheses say the pre-flush state and the patches are
genuine JavaScript objects (unique keys). -/
theorem c2_flush_merges_patches_in_order [DecidableEq K]
    (vne : Option V → Option V → Bool) (script : Nat → List Nat)
    (st : StoreState K V) (k : K)
    (hc : objWF st.curr.fields) (hp : ∀ p ∈ st.stateChanges, objWF p) :
    getv (tick vne script st).1.curr.fields k =
      specShallowMerge st.curr.fields st.stateChanges k :=
  getv_tickMergeFields st.curr.fields st.stateChanges k hc hp

theorem c2_witness :
    getv (tick natVne noScript demoStore).1.curr.fields 1 =
      specShallowMerge demoStore.curr.fields demoStore.stateChanges 1 :=
  c2_flush_merges_patches_in_order natVne noScript demoStore 1 (by decide) (by decide)

/-- C6: in the promise form of `setState`, if a flush notifies the wrapper
within the 200 ms window, the caller-facing promise resolves with the new
state object; if the timeout fires first, the inner promise rejects with
the fixed reason `state not update`, but `.catch(noop)` discards that
rejection, so the caller-facing promise is fulfilled with `undefined`: the
caller observes neither a resolution carrying a state nor a rejection, even
if a flush arrives later. -/
theorem c6_promise_timeout_swallowed (s s2 : T) :
    callerOutcome (wrapperFire (wrapperInit T) s) = some (Settle.fulfilled (some s)) ∧
    (timeoutFire (wrapperInit T)).settled = some (Settle.rejected "state not update") ∧
    callerOutcome (timeoutFire (wrapperInit T)) = some (Settle.fulfilled none) ∧
    callerOutcome (wrapperFire (timeoutFire (wrapperInit T)) s2) =
      some (Settle.fulfilled none) ∧
    (∀ t : T, callerOutcome (timeoutFire (wrapperInit T)) ≠
      some (Settle.fulfilled (some t))) ∧
    (∀ r : String, callerOutcome (timeoutFire (wrapperInit T)) ≠
      some (Settle.rejected r)) := by
  refine ⟨rfl, rfl, rfl, rfl, fun t => ?_, fun r => ?_⟩ <;>
    simp [callerOutcome, timeoutFire, wrapperInit, catchNoop]

/-- C7: every flush replaces `current` with a freshly allocated object: its
identity differs from the pre-flush identity, and the allocator invariant
(every live object tag is below `nextId`) is preserved, so this holds of
every flush in any reachable store state. -/
theorem c7_flush_produces_fresh_identity [DecidableEq K]
    (vne : Option V → Option V → Bool) (script : Nat → List Nat)
    (st : StoreState K V) (h : st.curr.oid < st.nextId) :
    (tick vne script st).1.curr.oid ≠ st.curr.oid ∧
    (tick vne script st).1.curr.oid < (tick vne script st).1.nextId := by
  refine ⟨?_, ?_⟩
  · show st.nextId ≠ st.curr.oid
    exact fun hc => absurd (hc ▸ h) (lt_irrefl _)
  · show st.nextId < st.nextId + 1
    exact Nat.lt_succ_self _

theorem c7_witness :
    (tick natVne noScript demoStore).1.curr.oid ≠ demoStore.curr.oid ∧
    (tick natVne noScript demoStore).1.curr.oid <
      (tick natVne noScript demoStore).1.nextId :=
  c7_flush_produces_fresh_identity natVne noScript demoStore (by decide)

/-- C3: on every flush, a live subscriber registered with `keys = [k]` is
invoked exactly when the value at `k` differs between the pre-flush and
post-flush states under the loose inequality `vne` (the flush always
allocates a fresh identity, so the reference-equality shortcut inside
`isStateChangedWithKeys` never suppresses the comparison), and a live
keyless subscriber is invoked on every flush with at least one pending
patch.  `hnd` is the dedup invariant `subscribe` maintains; `hr1`/`hr2`
say the subscriptions are live, i.e. not already pending removal. -/
theorem c3_key_scoped_gating [DecidableEq K]
    (vne : Option V → Option V → Bool) (script : Nat → List Nat)
    (st : StoreState K V) (cb cb2 : Nat) (k : K)
    (hwf : st.curr.oid < st.nextId)
    (hnd : (st.subsState.subs.map (·.cb)).Nodup)
    (hm1 : (⟨cb, some [k]⟩ : SubMeta K) ∈ st.subsState.subs)
    (hr1 : cb ∉ st.subsState.removed)
    (hm2 : (⟨cb2, none⟩ : SubMeta K) ∈ st.subsState.subs)
    (hr2 : cb2 ∉ st.subsState.removed)
    (_hpatch : st.stateChanges ≠ []) :
    (cb ∈ (tick vne script st).2 ↔
      vne (getv st.curr.fields k) (getv (tick vne script st).1.curr.fields k) = true) ∧
    cb2 ∈ (tick vne script st).2 := by
  have hoid : ¬ st.curr.oid = st.nextId := Nat.ne_of_lt hwf
  have hmain : (tick vne script st).2 =
      (notifyS vne script ⟨st.nextId, tickMergeFields st.curr.fields st.stateChanges⟩
        st.curr st.subsState).2 := rfl
  constructor
  · rw [hmain, mem_notify_invoked_iff]
    constructor
    · rintro ⟨m, hm, hg, hcb⟩
      have hm' : m ∈ st.subsState.subs := (pruneS_subs_sublist st.subsState).subset hm
      have heq : m = ⟨cb, some [k]⟩ := nodup_cb_eq hnd hm' hm1 (by rw [hcb])
      rw [heq, gate_single_key vne _ _ cb k hoid] at hg
      exact hg
    · intro hv
      refine ⟨⟨cb, some [k]⟩, mem_pruneS hm1 hr1, ?_, rfl⟩
      rw [gate_single_key vne _ _ cb k hoid]
      exact hv
  · rw [hmain, mem_notify_invoked_iff]
    exact ⟨⟨cb2, none⟩, mem_pruneS hm2 hr2, rfl, rfl⟩

theorem c3_witness :
    (1 ∈ (tick natVne noScript demoStore).2 ↔
      natVne (getv demoStore.curr.fields 1)
        (getv (tick natVne noScript demoStore).1.curr.fields 1) = true) ∧
    2 ∈ (tick natVne noScript demoStore).2 :=
  c3_key_scoped_gating natVne noScript demoStore 1 2 1 (by decide) (by decide)
    (by decide) (by decide) (by decide) (by decide) (by decide)

/-- C4: calling the returned unsubscribe from inside a subscriber callback
during a notification pass cannot change who is invoked in that pass (no
other subscriber is skipped or double-invoked: the invocation list is
script-independent and duplicate-free), it only appends to the
pending-removal list while the live list stays exactly the pruned list, and
any subscription pending removal at the end of the pass is pruned at the
start of the next pass and not invoked there.  Unsubscription is a total
operation in the model, so it cannot throw. -/
theorem c4_safe_unsubscribe_during_notify [DecidableEq K]
    (vne : Option V → Option V → Bool) (script script2 : Nat → List Nat)
    (newS prevS newS2 prevS2 : Obj K V) (st : SubscriberState K) (u : Nat)
    (hnd : (st.subs.map (·.cb)).Nodup)
    (hu : u ∈ (notifyS vne script newS prevS st).1.removed) :
    ((notifyS vne script newS prevS st).2 =
      (notifyS vne (fun _ => []) newS prevS st).2) ∧
    ((notifyS vne script newS prevS st).1.subs = (pruneS st).subs) ∧
    ((notifyS vne script newS prevS st).2.Nodup) ∧
    (u ∉ (notifyS vne script2 newS2 prevS2 (notifyS vne script newS prevS st).1).2) ∧
    (u ∉ ((notifyS vne script2 newS2 prevS2
      (notifyS vne script newS prevS st).1).1.subs.map (·.cb))) := by
  refine ⟨by rw [notifyS_invoked, notifyS_invoked], notifyS_subs vne script newS prevS st,
    ?_, ?_, ?_⟩
  · rw [notifyS_invoked]
    have h1 : ((pruneS st).subs.filter (gateS vne newS prevS)).Sublist st.subs :=
      ((List.filter_sublist _).trans (pruneS_subs_sublist st))
    exact (h1.map (·.cb)).nodup hnd
  · intro hmem
    rw [mem_notify_invoked_iff] at hmem
    rcases hmem with ⟨m, hm, _, hcb⟩
    exact mem_pruneS_not_removed hm (hcb ▸ hu)
  · intro hmem
    rw [notifyS_subs] at hmem
    rcases List.mem_map.mp hmem with ⟨m, hm, hcb⟩
    exact mem_pruneS_not_removed hm (hcb ▸ hu)

theorem c4_witness :
    ((notifyS natVne (fun c => if c = 1 then [2] else []) ⟨1, []⟩ ⟨0, []⟩
        (⟨[⟨1, none⟩, ⟨2, none⟩, ⟨3, none⟩], []⟩ : SubscriberState Nat)).2 =
      (notifyS natVne (fun _ => []) ⟨1, []⟩ ⟨0, []⟩
        (⟨[⟨1, none⟩, ⟨2, none⟩, ⟨3, none⟩], []⟩ : SubscriberState Nat)).2) ∧
    ((notifyS natVne (fun c => if c = 1 then [2] else []) ⟨1, []⟩ ⟨0, []⟩
        (⟨[⟨1, none⟩, ⟨2, none⟩, ⟨3, none⟩], []⟩ : SubscriberState Nat)).1.subs =
      (pruneS (⟨[⟨1, none⟩, ⟨2, none⟩, ⟨3, none⟩], []⟩ : SubscriberState Nat)).subs) ∧
    ((notifyS natVne (fun c => if c = 1 then [2] else []) ⟨1, []⟩ ⟨0, []⟩
        (⟨[⟨1, none⟩, ⟨2, none⟩, ⟨3, none⟩], []⟩ : SubscriberState Nat)).2.Nodup) ∧
    (2 ∉ (notifyS natVne noScript ⟨2, []⟩ ⟨1, []⟩
      (notifyS natVne (fun c => if c = 1 then [2] else []) ⟨1, []⟩ ⟨0, []⟩
        (⟨[⟨1, none⟩, ⟨2, none⟩, ⟨3, none⟩], []⟩ : SubscriberState Nat)).1).2) ∧
    (2 ∉ ((notifyS natVne noScript ⟨2, []⟩ ⟨1, []⟩
      (notifyS natVne (fun c => if c = 1 then [2] else []) ⟨1, []⟩ ⟨0, []⟩
        (⟨[⟨1, none⟩, ⟨2, none⟩, ⟨3, none⟩], []⟩ : SubscriberState Nat)).1).1.subs.map (·.cb))) :=
  c4_safe_unsubscribe_during_notify natVne (fun c => if c = 1 then [2] else []) noScript
    ⟨1, []⟩ ⟨0, []⟩ ⟨2, []⟩ ⟨1, []⟩ ⟨[⟨1, none⟩, ⟨2, none⟩, ⟨3, none⟩], []⟩ 2
    (by decide) (by decide)

/-- C8: `take(n)` removes and returns the first `min n size` items in
insertion order in both queue modes (the count is clamped to the size);
with `unique = true`, adding an already-present item changes nothing; and
the concrete scenario: after `add a`, `add b`, `add a` the unique queue has
size 2 and `take(2)` returns `['a','b']`. -/
theorem c8_queue_fifo_and_uniqueness {T : Type} [DecidableEq T]
    (l : List T) (n : Nat) (x : T) (hx : x ∈ l) :
    (qtake false n ⟨l, []⟩ =
      (l.take (min n l.length), ⟨l.drop (min n l.length), []⟩)) ∧
    (qtake true n ⟨[], l⟩ =
      (l.take (min n l.length), ⟨[], l.drop (min n l.length)⟩)) ∧
    (qadd true x ⟨[], l⟩ = ⟨[], l⟩) ∧
    (qsize true (qadd true 'a' (qadd true 'b' (qadd true 'a' (⟨[], []⟩ : Queue Char)))) = 2 ∧
      (qtake true 2 (qadd true 'a' (qadd true 'b'
        (qadd true 'a' (⟨[], []⟩ : Queue Char))))).1 = ['a', 'b']) := by
  refine ⟨?_, ?_, ?_, by decide, by decide⟩
  · show (l.take (if n > l.length then l.length else n),
      ({ items := l.drop (if n > l.length then l.length else n), uitems := [] } : Queue T)) =
      (l.take (min n l.length), ⟨l.drop (min n l.length), []⟩)
    rw [clamp_eq_min]
  · show ((utakeLoop (if n > l.length then l.length else n) l).1,
      ({ items := [], uitems := (utakeLoop (if n > l.length then l.length else n) l).2 }
        : Queue T)) =
      (l.take (min n l.length), ⟨[], l.drop (min n l.length)⟩)
    rw [clamp_eq_min, utakeLoop_eq]
  · simp [qadd, hx]

theorem c8_witness :
    (qtake false 2 ⟨['a', 'b', 'c'], []⟩ =
      (['a', 'b', 'c'].take (min 2 ['a', 'b', 'c'].length),
        ⟨['a', 'b', 'c'].drop (min 2 ['a', 'b', 'c'].length), []⟩)) ∧
    (qtake true 2 ⟨[], ['a', 'b', 'c']⟩ =
      (['a', 'b', 'c'].take (min 2 ['a', 'b', 'c'].length),
        ⟨[], ['a', 'b', 'c'].drop (min 2 ['a', 'b', 'c'].length)⟩)) ∧
    (qadd true 'b' ⟨[], ['a', 'b', 'c']⟩ = ⟨[], ['a', 'b', 'c']⟩) ∧
    (qsize true (qadd true 'a' (qadd true 'b' (qadd true 'a' (⟨[], []⟩ : Queue Char)))) = 2 ∧
      (qtake true 2 (qadd true 'a' (qadd true 'b'
        (qadd true 'a' (⟨[], []⟩ : Queue Char))))).1 = ['a', 'b']) :=
  c8_queue_fifo_and_uniqueness ['a', 'b', 'c'] 2 'b' (by decide)

/-- C10: unsubscribing a callback and then subscribing the same callback
reference again before the next notification pass leaves the live list
unchanged (the reference-based dedup finds the old record, which is still
in the live list pending lazy removal), the record stays on the
pending-removal list, and the next notification pass prunes it: the
callback is neither invoked in that pass nor present in the live list
afterwards. -/
theorem c10_resubscribe_before_prune_is_noop [DecidableEq K]
    (vne : Option V → Option V → Bool) (script : Nat → List Nat)
    (newS prevS : Obj K V) (st : SubscriberState K) (u : Nat) (ks : Option (List K))
    (hm : u ∈ st.subs.map (·.cb)) :
    ((subscribeS u ks (unsubscribeS u st)).subs = st.subs) ∧
    (u ∈ (subscribeS u ks (unsubscribeS u st)).removed) ∧
    (u ∉ (notifyS vne script newS prevS (subscribeS u ks (unsubscribeS u st))).2) ∧
    (u ∉ ((notifyS vne script newS prevS
      (subscribeS u ks (unsubscribeS u st))).1.subs.map (·.cb))) := by
  have hex : ∃ m ∈ st.subs, m.cb = u := by
    rcases List.mem_map.mp hm with ⟨m, hmm, hcb⟩
    exact ⟨m, hmm, hcb⟩
  have hun : unsubscribeS u st = { st with removed := st.removed ++ [u] } := by
    unfold unsubscribeS
    rw [if_pos hex]
  have hsub : subscribeS u ks (unsubscribeS u st) =
      { st with removed := st.removed ++ [u] } := by
    rw [hun]
    unfold subscribeS
    rw [if_pos hex]
  have hurm : u ∈ ({ st with removed := st.removed ++ [u] } : SubscriberState K).removed :=
    List.mem_append.mpr (Or.inr (List.mem_singleton.mpr rfl))
  refine ⟨by rw [hsub], by rw [hsub]; exact hurm, ?_, ?_⟩
  · rw [hsub]
    intro hmem
    rw [mem_notify_invoked_iff] at hmem
    rcases hmem with ⟨m, hmp, _, hcb⟩
    exact mem_pruneS_not_removed hmp (hcb ▸ hurm)
  · rw [hsub]
    intro hmem
    rw [notifyS_subs] at hmem
    rcases List.mem_map.mp hmem with ⟨m, hmp, hcb⟩
    exact mem_pruneS_not_removed hmp (hcb ▸ hurm)

theorem c10_witness :
    ((subscribeS 1 none (unsubscribeS 1
        (⟨[⟨1, some [5]⟩, ⟨2, none⟩], []⟩ : SubscriberState Nat))).subs =
      [⟨1, some [5]⟩, ⟨2, none⟩]) ∧
    (1 ∈ (subscribeS 1 none (unsubscribeS 1
        (⟨[⟨1, some [5]⟩, ⟨2, none⟩], []⟩ : SubscriberState Nat))).removed) ∧
    (1 ∉ (notifyS natVne noScript ⟨1, []⟩ ⟨0, []⟩ (subscribeS 1 none (unsubscribeS 1
        (⟨[⟨1, some [5]⟩, ⟨2, none⟩], []⟩ : SubscriberState Nat)))).2) ∧
    (1 ∉ ((notifyS natVne noScript ⟨1, []⟩ ⟨0, []⟩ (subscribeS 1 none (unsubscribeS 1
        (⟨[⟨1, some [5]⟩, ⟨2, none⟩], []⟩ : SubscriberState Nat)))).1.subs.map (·.cb))) :=
  c10_resubscribe_before_prune_is_noop natVne noScript ⟨1, []⟩ ⟨0, []⟩
    ⟨[⟨1, some [5]⟩, ⟨2, none⟩], []⟩ 1 none (by decide)

/-- C5 counterexample: the claim asserts that `State.dispose()` invokes the
stored Deferral Scheduler cancel handle, cancelling any pending scheduled
flush.  The source discards the handle (`nextTime(() => this.tick())` on
line 210 of src/lib/state.ts) and `dispose` touches only the patches, the
state and the subscriber machinery, so after a `setState` has scheduled a
flush on a non-immediate store, the flush is still scheduled after
`dispose()`: the instantiated claim, `pendingFlush = false` afterwards, is
false. -/
theorem c5_counterexample_dispose_cancels_nothing :
    ¬ ((disposeStore (markDirty natVne noScript false c5Store).1).pendingFlush = false) := by
  decide

/-- C5 (amended): the Idle Queue Scheduler side of the claim holds —
`destroy()` invokes the stored cancel handle (a pending scheduled drain is
cancelled), clears the queue and detaches the hook, while an already
in-flight awaited hook invocation is untouched and still runs to
completion.  The State Store side does not: `dispose()` clears its owned
collections (patches, subscribers) and resets the state, but it stores no
cancel handle and cancels nothing, so a pending scheduled flush stays
scheduled. -/
theorem c5_amended_only_scheduler_destroy_cancels [DecidableEq K]
    (s : Sched T) (st : StoreState K V) (hc : s.cancelSet = true) :
    ((destroyS s).drainScheduled = false ∧
     (destroyS s).q = qdestroy T ∧
     (destroyS s).hookSet = false ∧
     (destroyS s).inFlight = s.inFlight) ∧
    ((disposeStore st).pendingFlush = st.pendingFlush ∧
     (disposeStore st).stateChanges = [] ∧
     (disposeStore st).subsState = disposeS K) := by
  refine ⟨⟨?_, rfl, rfl, rfl⟩, rfl, rfl, rfl⟩
  show (if s.cancelSet then false else s.drainScheduled) = false
  rw [hc]
  rfl

theorem c5_witness :
    (((destroyS c5Sched).drainScheduled = false ∧
      (destroyS c5Sched).q = qdestroy Char ∧
      (destroyS c5Sched).hookSet = false ∧
      (destroyS c5Sched).inFlight = c5Sched.inFlight) ∧
     ((disposeStore c5Store).pendingFlush = c5Store.pendingFlush ∧
      (disposeStore c5Store).stateChanges = [] ∧
      (disposeStore c5Store).subsState = disposeS Nat)) :=
  c5_amended_only_scheduler_destroy_cancels c5Sched c5Store (by decide)

/-- C9: with `immediateFlush = true`, the promise form of `setState`
flushes synchronously inside the call — `markDirty` runs `tick` before the
`Promise` executor subscribes the one-shot wrapper — so that flush does not
invoke the wrapper (it is not yet subscribed); after the call the wrapper
is subscribed, the state has a fresh identity and the patch queue is
drained.  The returned promise therefore resolves only if some later flush
notifies the wrapper within the 200 ms window; otherwise the timeout
rejection is swallowed by `.catch(noop)` and the caller sees a promise
fulfilled with `undefined`. -/
theorem c9_immediate_flush_never_resolves_own_promise [DecidableEq K]
    (vne : Option V → Option V → Bool) (script : Nat → List Nat)
    (patch : List (K × V)) (wcb : Nat) (st : StoreState K V)
    (hd : st.dirty = false)
    (hwf : st.curr.oid < st.nextId)
    (hfresh : wcb ∉ st.subsState.subs.map (·.cb)) :
    (wcb ∉ (setStatePromise vne script true patch wcb st).2) ∧
    (wcb ∈ (setStatePromise vne script true patch wcb st).1.subsState.subs.map (·.cb)) ∧
    ((setStatePromise vne script true patch wcb st).1.curr.oid ≠ st.curr.oid) ∧
    ((setStatePromise vne script true patch wcb st).1.stateChanges = []) ∧
    (callerOutcome (timeoutFire (wrapperInit (Obj K V))) = some (Settle.fulfilled none)) ∧
    (∀ s : Obj K V, callerOutcome (wrapperFire (wrapperInit (Obj K V)) s) =
      some (Settle.fulfilled (some s))) := by
  obtain ⟨curr, sc, dirty, subs, pf, nid⟩ := st
  simp only at hd hwf hfresh
  subst hd
  have hfresh2 : ∀ m ∈ subs.subs, ¬ m.cb = wcb := by
    intro m hmm hcb
    exact hfresh (List.mem_map.mpr ⟨m, hmm, hcb⟩)
  have h2eq : (setStatePromise vne script true patch wcb ⟨curr, sc, false, subs, pf, nid⟩).2 =
      (notifyS vne script ⟨nid, tickMergeFields curr.fields (sc ++ [patch])⟩ curr subs).2 :=
    rfl
  have hXeq : (setStatePromise vne script true patch wcb
      ⟨curr, sc, false, subs, pf, nid⟩).1.subsState =
      subscribeS wcb none
        (notifyS vne script ⟨nid, tickMergeFields curr.fields (sc ++ [patch])⟩
          curr subs).1 := rfl
  refine ⟨?_, ?_, ?_, rfl, rfl, fun s => rfl⟩
  · rw [h2eq, mem_notify_invoked_iff]
    rintro ⟨m, hm, _, hcb⟩
    exact hfresh2 m ((pruneS_subs_sublist subs).subset hm) hcb
  · rw [hXeq]
    have hnot : ¬ ∃ m ∈ (notifyS vne script
        ⟨nid, tickMergeFields curr.fields (sc ++ [patch])⟩ curr subs).1.subs, m.cb = wcb := by
      rintro ⟨m, hm, hcb⟩
      rw [notifyS_subs] at hm
      exact hfresh2 m ((pruneS_subs_sublist subs).subset hm) hcb
    rw [subscribeS_subs_of_not_mem hnot, List.map_append]
    exact List.mem_append.mpr (Or.inr (List.mem_singleton.mpr rfl))
  · show nid ≠ curr.oid
    exact fun hc => absurd (hc ▸ hwf) (lt_irrefl _)

theorem c9_witness :
    (9 ∉ (setStatePromise natVne noScript true [(1, 6)] 9 c9Store).2) ∧
    (9 ∈ (setStatePromise natVne noScript true [(1, 6)] 9 c9Store).1.subsState.subs.map
      (·.cb)) ∧
    ((setStatePromise natVne noScript true [(1, 6)] 9 c9Store).1.curr.oid ≠
      c9Store.curr.oid) ∧
    ((setStatePromise natVne noScript true [(1, 6)] 9 c9Store).1.stateChanges = []) ∧
    (callerOutcome (timeoutFire (wrapperInit (Obj Nat Nat))) =
      some (Settle.fulfilled none)) ∧
    (∀ s : Obj Nat Nat, callerOutcome (wrapperFire (wrapperInit (Obj Nat Nat)) s) =
      some (Settle.fulfilled (some s))) :=
  c9_immediate_flush_never_resolves_own_promise natVne noScript [(1, 6)] 9 c9Store
    (by decide) (by decide) (by decide)

end JsUtilities
